import Mathlib

/-!
Verification of the trading-policy core of gnosis/predictionprophet
(`predictionprophet_deployment/agents/prophet_agent/deploy.py`,
class `DeployableTraderAgentER`).

The embedding models the three policy procedures:
  * `recently_betted` / `pick_markets` — market selection,
  * `calculate_bet_amount`            — stake sizing,
  * `answer_binary_market`            — answer resolution.

External collaborators (market data service, bet-history providers,
predictability oracle, prediction oracle) are modelled as explicit
parameters.  Side effects are made visible as data:
  * every `logger.info` / `logger.warning` / `logger.error` call site is one
    constructor of `LogMsg`, carrying the interpolated data, and functions
    return the list of messages they emit, in order;
  * each execution of a 24-hour bet-history fetch is recorded as one entry
    (the platform kind fetched) in a fetch trace;
  * each call to the prediction oracle is recorded as one entry (the question
    asked) in a query trace.
Python floats are modelled as rationals; a `should_not_happen` call is
modelled as `Except.error` with the message the source passes it.
-/

namespace ProphetAgent

/-- Platform kind of a market.  The source dispatches with `isinstance` over
`ManifoldAgentMarket` and `OmenAgentMarket`; any other runtime type falls into
the `should_not_happen` branch, modelled by `unknownKind`. -/
inductive MarketKind where
  | manifold
  | omen
  | unknownKind
deriving DecidableEq

/-- Native currency tag of a `BetAmount` (Manifold Mana or Omen xDai). -/
inductive Currency where
  | mana
  | xdai
deriving DecidableEq

/-- Snapshot of an `AgentMarket` as consumed by the policy: question text,
current implied probability of yes, liquidity (meaningful for Omen markets,
from `get_liquidity_in_xdai`), the external `get_minimum_bet_to_win` method
(arguments: decision, amount to win), the amount of `get_tiny_bet_amount`,
and the native currency. -/
structure AgentMarket where
  kind : MarketKind
  question : String
  current_p_yes : ℚ
  liquidity : ℚ
  minimumBetToWin : Bool → ℚ → ℚ
  tinyBetAmount : ℚ
  currency : Currency

/-- An `Answer` produced by the prediction step: a yes/no decision and a
confidence value. -/
structure Answer where
  decision : Bool
  confidence : ℚ
deriving DecidableEq

/-- A bet amount paired with its currency. -/
structure BetAmount where
  amount : ℚ
  currency : Currency
deriving DecidableEq

/-- One constructor per logging call site of the source, carrying the data
interpolated into the message. -/
inductive LogMsg where
  /-- info: Looking if we recently bet on (question). -/
  | lookingRecent (q : String)
  /-- info: Recently betted, skipping. -/
  | recentlySkipping
  /-- info: Verifying market predictability for (question). -/
  | verifyingPredictability (q : String)
  /-- info: Market (question) is predictable. -/
  | isPredictableMsg (q : String)
  /-- warning: Calculated amount (amount) (currency) is exceeding our limit
  (max), betting only (tiny) for benchmark purposes. -/
  | exceedingLimit (amount maxAmount tiny : ℚ) (c : Currency)
  /-- error: Prediction failed for (question). -/
  | predictionFailed (q : String)
  /-- info: Answering (question) with (decision). -/
  | answering (q : String) (d : Bool)
deriving DecidableEq

/-- Result of one 24-hour bet-history fetch per platform: for Manifold, the
set of question texts of the markets of the authenticated user's bets; for
Omen, the set of bet titles fetched from the subgraph for the credential
address.  Sets are modelled as lists with membership tested up to equality. -/
structure History where
  manifoldQuestions : List String
  omenTitles : List String

/-- `DeployableTraderAgentER.recently_betted`.  Each call performs one
bet-history fetch for the platform of the given market (recorded in the
returned trace) and tests membership of the market's question in the fetched
set of question texts / bet titles.  An unrecognized market type hits
`should_not_happen`. -/
def recently_betted (h : History) (m : AgentMarket) :
    Except String (List MarketKind × Bool) :=
  if m.kind = MarketKind.manifold then
    Except.ok ([MarketKind.manifold], decide (m.question ∈ h.manifoldQuestions))
  else if m.kind = MarketKind.omen then
    Except.ok ([MarketKind.omen], decide (m.question ∈ h.omenTitles))
  else
    Except.error "Uknown market"

/-- The membership test underlying `recently_betted`: whether the market's
question text is in the 24-hour bet-history set of its platform. -/
def questionInHistory (h : History) (m : AgentMarket) : Bool :=
  if m.kind = MarketKind.manifold then decide (m.question ∈ h.manifoldQuestions)
  else if m.kind = MarketKind.omen then decide (m.question ∈ h.omenTitles)
  else false

/-- The external collaborators of market selection: the bet-history providers
(summarized by `History`) and the predictability oracle
`agent.is_predictable`. -/
structure Env where
  history : History
  predictable : String → Bool

/-- Default `max_markets_per_run` of `DeployableTraderAgentER`. -/
def default_max_markets_per_run : Nat := 5

/-- `max_markets_per_run` of the GPT-4 agent variants. -/
def gpt4_max_markets_per_run : Nat := 1

/-- Loop of `DeployableTraderAgentER.pick_markets`, with the accumulated
`picked_markets` made explicit.  Returns the fetch trace, the log trace and
the final picked list; an error from `recently_betted` propagates.  The break
test `len(picked_markets) >= self.max_markets_per_run` sits at the end of the
loop body and is skipped by the `continue` of the recency branch, exactly as
in the source. -/
def pick_go (env : Env) (maxMarkets : Nat) (picked : List AgentMarket) :
    List AgentMarket →
      Except String (List MarketKind × List LogMsg × List AgentMarket)
  | [] => Except.ok ([], [], picked)
  | m :: rest =>
    match recently_betted env.history m with
    | Except.error e => Except.error e
    | Except.ok (fs, b) =>
      if b then
        match pick_go env maxMarkets picked rest with
        | Except.error e => Except.error e
        | Except.ok (fs2, logs2, res) =>
          Except.ok (fs ++ fs2,
            LogMsg.lookingRecent m.question :: LogMsg.recentlySkipping :: logs2,
            res)
      else if env.predictable m.question then
        if maxMarkets ≤ picked.length + 1 then
          Except.ok (fs,
            [LogMsg.lookingRecent m.question,
             LogMsg.verifyingPredictability m.question,
             LogMsg.isPredictableMsg m.question],
            picked ++ [m])
        else
          match pick_go env maxMarkets (picked ++ [m]) rest with
          | Except.error e => Except.error e
          | Except.ok (fs2, logs2, res) =>
            Except.ok (fs ++ fs2,
              LogMsg.lookingRecent m.question ::
                LogMsg.verifyingPredictability m.question ::
                LogMsg.isPredictableMsg m.question :: logs2,
              res)
      else if maxMarkets ≤ picked.length then
        Except.ok (fs,
          [LogMsg.lookingRecent m.question,
           LogMsg.verifyingPredictability m.question],
          picked)
      else
        match pick_go env maxMarkets picked rest with
        | Except.error e => Except.error e
        | Except.ok (fs2, logs2, res) =>
          Except.ok (fs ++ fs2,
            LogMsg.lookingRecent m.question ::
              LogMsg.verifyingPredictability m.question :: logs2,
            res)

/-- `DeployableTraderAgentER.pick_markets`. -/
def pick_markets (env : Env) (maxMarkets : Nat) (markets : List AgentMarket) :
    Except String (List MarketKind × List LogMsg × List AgentMarket) :=
  pick_go env maxMarkets [] markets

/-- Modelled from the spec: `prob_uncertainty` (external, from the
prediction-market tooling library) measures the distance of an implied
probability from maximal uncertainty 0.5, scaled so that values of `p` in
`[0, 1]` land in `[0, 1]` with the maximum 1 at `p = 0.5`. -/
def prob_uncertainty (p : ℚ) : ℚ := 1 - 2 * |p - 1/2|

/-- Modelled from the spec: `stretch_bet_between` (external, from the
prediction-market tooling library) stretches a bounded scalar in `[0, 1]`
affinely into the range `[min_bet, max_bet]`. -/
def stretch_bet_between (t min_bet max_bet : ℚ) : ℚ :=
  min_bet + t * (max_bet - min_bet)

/-- Base stake of the Omen branch of `calculate_bet_amount`:
`stretch_bet_between(prob_uncertainty(market.current_p_yes), 0.5, 1.0)`. -/
def omenBaseAmount (m : AgentMarket) : ℚ :=
  stretch_bet_between (prob_uncertainty m.current_p_yes) (1/2) 1

/-- Directional adjustment of the Omen branch: multiply by 0.75 when the
decision agrees with `market.current_p_yes > 0.5`, by 1.25 otherwise. -/
def omenAdjustedAmount (a : Answer) (m : AgentMarket) : ℚ :=
  if a.decision = decide (m.current_p_yes > 1/2) then
    omenBaseAmount m * (3/4)
  else
    omenBaseAmount m * (5/4)

/-- Liquidity-tiered maximum of the Omen branch:
`2.0 if market_liquidity > 5 else 0.1 if market_liquidity > 1 else 0`. -/
def omenMaxBetAmount (liq : ℚ) : ℚ :=
  if liq > 5 then 2 else if liq > 1 then 1/10 else 0

/-- The `amount` computed by the platform branch of `calculate_bet_amount`:
for Manifold, `get_minimum_bet_to_win(answer.decision, amount_to_win=1)`;
for Omen, the adjusted stretched base stake. -/
def computedAmount (a : Answer) (m : AgentMarket) : ℚ :=
  if m.kind = MarketKind.manifold then m.minimumBetToWin a.decision 1
  else omenAdjustedAmount a m

/-- The `max_bet_amount` set by the platform branch of
`calculate_bet_amount`: 10.0 for Manifold, the liquidity tier for Omen. -/
def applicableMax (m : AgentMarket) : ℚ :=
  if m.kind = MarketKind.manifold then 10
  else omenMaxBetAmount m.liquidity

/-- `DeployableTraderAgentER.calculate_bet_amount`.  An unrecognized market
type hits `should_not_happen` before any amount is computed; otherwise the
branch amount and cap are computed and, when the amount exceeds the cap, a
warning is logged and the market's tiny bet amount is substituted. -/
def calculate_bet_amount (a : Answer) (m : AgentMarket) :
    Except String (List LogMsg × BetAmount) :=
  if m.kind = MarketKind.unknownKind then
    Except.error "Unknown market type"
  else if applicableMax m < computedAmount a m then
    Except.ok
      ([LogMsg.exceedingLimit (computedAmount a m) (applicableMax m)
          m.tinyBetAmount m.currency],
       { amount := m.tinyBetAmount, currency := m.currency })
  else
    Except.ok ([], { amount := computedAmount a m, currency := m.currency })

/-- Result of `agent.predict`: an optional outcome prediction. -/
structure Prediction where
  outcome_prediction : Option Answer

/-- `DeployableTraderAgentER.answer_binary_market`.  Returns the trace of
questions sent to the prediction oracle (one entry per `predict` call
executed), the log trace, and the optional answer. -/
def answer_binary_market (predict : String → Prediction) (m : AgentMarket) :
    List String × List LogMsg × Option Answer :=
  match (predict m.question).outcome_prediction with
  | none => ([m.question], [LogMsg.predictionFailed m.question], none)
  | some op =>
      ([m.question], [LogMsg.answering m.question op.decision], some op)

/-- Classifier: the message is a `lookingRecent` line. -/
def isLookingMsg : LogMsg → Bool
  | LogMsg.lookingRecent _ => true
  | _ => false

/-- Classifier: the message is the `recentlySkipping` line. -/
def isSkippingMsg : LogMsg → Bool
  | LogMsg.recentlySkipping => true
  | _ => false

/-- Classifier: the message is a `verifyingPredictability` line. -/
def isVerifyingMsg : LogMsg → Bool
  | LogMsg.verifyingPredictability _ => true
  | _ => false

/-- Classifier: the message is an `isPredictableMsg` line. -/
def isPredictableLog : LogMsg → Bool
  | LogMsg.isPredictableMsg _ => true
  | _ => false

/-- Classifier: the message states that a market is being dropped from
selection.  Among all messages the selection code emits, only
`recentlySkipping` ("Recently betted, skipping.") states a drop and its
reason; `lookingRecent` and `verifyingPredictability` announce upcoming
checks and `isPredictableMsg` announces acceptance. -/
def statesDropReason : LogMsg → Bool
  | LogMsg.recentlySkipping => true
  | _ => false

/-- The applicable maximum stake as the specification words it: 10 units for
a Platform A (Manifold) market; for a Platform B (Omen) market, tiered by
liquidity as liquidity > 5 → 2.0, liquidity in (1, 5] → 0.1,
liquidity ≤ 1 → 0.  Stated for comparison with `applicableMax`, which is
read off the source. -/
def spec_applicable_max (m : AgentMarket) : ℚ :=
  if m.kind = MarketKind.manifold then 10
  else if 5 < m.liquidity then 2
  else if 1 < m.liquidity ∧ m.liquidity ≤ 5 then 1/10
  else 0

/-- Concrete Manifold market used to instantiate the sizing theorems. -/
def mW1 : AgentMarket :=
  { kind := MarketKind.manifold, question := "w1", current_p_yes := 1/2,
    liquidity := 0, minimumBetToWin := fun _ _ => 3, tinyBetAmount := 1,
    currency := Currency.mana }

/-- Concrete answer used to instantiate the sizing theorems. -/
def aW1 : Answer := { decision := true, confidence := 3/5 }

/-- Environment with empty 24-hour history and an always-true predictability
oracle. -/
def envW : Env :=
  { history := { manifoldQuestions := [], omenTitles := [] },
    predictable := fun _ => true }

/-- Concrete Manifold market for the selection cap instantiation. -/
def mW2 : AgentMarket :=
  { kind := MarketKind.manifold, question := "w2", current_p_yes := 1/2,
    liquidity := 0, minimumBetToWin := fun _ _ => 2, tinyBetAmount := 1,
    currency := Currency.mana }

/-- Environment whose Manifold 24-hour history contains question "q1". -/
def envW3 : Env :=
  { history := { manifoldQuestions := ["q1"], omenTitles := [] },
    predictable := fun _ => true }

/-- Manifold market on question "q1" (present in `envW3`'s history). -/
def m1C3 : AgentMarket :=
  { kind := MarketKind.manifold, question := "q1", current_p_yes := 1/2,
    liquidity := 0, minimumBetToWin := fun _ _ => 2, tinyBetAmount := 1,
    currency := Currency.mana }

/-- Manifold market on question "q2" (absent from `envW3`'s history). -/
def m2C3 : AgentMarket :=
  { kind := MarketKind.manifold, question := "q2", current_p_yes := 1/2,
    liquidity := 0, minimumBetToWin := fun _ _ => 2, tinyBetAmount := 1,
    currency := Currency.mana }

/-- Omen market with liquidity 3 (tier cap 0.1) and implied probability
exactly 0.5. -/
def mX4 : AgentMarket :=
  { kind := MarketKind.omen, question := "x4", current_p_yes := 1/2,
    liquidity := 3, minimumBetToWin := fun _ _ => 0, tinyBetAmount := 1/100,
    currency := Currency.xdai }

/-- Answer agreeing with `mX4`'s majority lean
(`decide (1/2 > 1/2) = false`). -/
def aX4agree : Answer := { decision := false, confidence := 1/2 }

/-- Answer disagreeing with `mX4`'s majority lean. -/
def aX4disagree : Answer := { decision := true, confidence := 1/2 }

/-- Omen market with liquidity 10 (tier cap 2.0) and implied probability
exactly 0.5. -/
def mV4 : AgentMarket :=
  { kind := MarketKind.omen, question := "v4", current_p_yes := 1/2,
    liquidity := 10, minimumBetToWin := fun _ _ => 0, tinyBetAmount := 1/100,
    currency := Currency.xdai }

/-- Answer agreeing with `mV4`'s majority lean. -/
def aV4a : Answer := { decision := false, confidence := 1/2 }

/-- Answer disagreeing with `mV4`'s majority lean. -/
def aV4b : Answer := { decision := true, confidence := 1/2 }

/-- Concrete Manifold market for the cap-tier instantiation. -/
def mW5 : AgentMarket :=
  { kind := MarketKind.manifold, question := "w5", current_p_yes := 1/2,
    liquidity := 0, minimumBetToWin := fun _ _ => 3, tinyBetAmount := 1,
    currency := Currency.mana }

/-- Concrete answer for the cap-tier instantiation. -/
def aW5 : Answer := { decision := true, confidence := 3/5 }

/-- Concrete answer returned by the prediction oracle `predW`. -/
def aC6 : Answer := { decision := true, confidence := 7/10 }

/-- Prediction oracle that always yields `aC6`. -/
def predW : String → Prediction :=
  fun _ => { outcome_prediction := some aC6 }

/-- Concrete market for the answer-resolution instantiation. -/
def mW6 : AgentMarket :=
  { kind := MarketKind.manifold, question := "w6", current_p_yes := 1/2,
    liquidity := 0, minimumBetToWin := fun _ _ => 2, tinyBetAmount := 1,
    currency := Currency.mana }

/-- A market of unrecognized platform kind. -/
def mU7 : AgentMarket :=
  { kind := MarketKind.unknownKind, question := "u7", current_p_yes := 1/2,
    liquidity := 0, minimumBetToWin := fun _ _ => 2, tinyBetAmount := 1,
    currency := Currency.mana }

/-- Concrete answer for the unknown-kind instantiation. -/
def aU7 : Answer := { decision := true, confidence := 1/2 }

/-- Environment with empty history for the unknown-kind instantiation. -/
def envU7 : Env :=
  { history := { manifoldQuestions := [], omenTitles := [] },
    predictable := fun _ => true }

/-- Environment with empty 24-hour history and an always-true predictability
oracle, for the fetch-count run. -/
def envW8 : Env :=
  { history := { manifoldQuestions := [], omenTitles := [] },
    predictable := fun _ => true }

/-- First Manifold market of the fetch-count run. -/
def m1W8 : AgentMarket :=
  { kind := MarketKind.manifold, question := "r1", current_p_yes := 1/2,
    liquidity := 0, minimumBetToWin := fun _ _ => 2, tinyBetAmount := 1,
    currency := Currency.mana }

/-- Second Manifold market of the fetch-count run. -/
def m2W8 : AgentMarket :=
  { kind := MarketKind.manifold, question := "r2", current_p_yes := 1/2,
    liquidity := 0, minimumBetToWin := fun _ _ => 2, tinyBetAmount := 1,
    currency := Currency.mana }

/-- Environment with empty history and an always-false predictability
oracle. -/
def envW9 : Env :=
  { history := { manifoldQuestions := [], omenTitles := [] },
    predictable := fun _ => false }

/-- Manifold market that `envW9`'s oracle judges unpredictable. -/
def mW9 : AgentMarket :=
  { kind := MarketKind.manifold, question := "s1", current_p_yes := 1/2,
    liquidity := 0, minimumBetToWin := fun _ _ => 2, tinyBetAmount := 1,
    currency := Currency.mana }

/-- Environment whose Manifold history contains "t1" and whose oracle judges
nothing predictable. -/
def envT9 : Env :=
  { history := { manifoldQuestions := ["t1"], omenTitles := [] },
    predictable := fun _ => false }

/-- Manifold market on question "t1" (recently betted under `envT9`). -/
def mT1 : AgentMarket :=
  { kind := MarketKind.manifold, question := "t1", current_p_yes := 1/2,
    liquidity := 0, minimumBetToWin := fun _ _ => 2, tinyBetAmount := 1,
    currency := Currency.mana }

/-- Manifold market on question "t2" (not recent, judged unpredictable under
`envT9`). -/
def mT2 : AgentMarket :=
  { kind := MarketKind.manifold, question := "t2", current_p_yes := 1/2,
    liquidity := 0, minimumBetToWin := fun _ _ => 2, tinyBetAmount := 1,
    currency := Currency.mana }

/-- The log trace of the `envT9` run on `[mT1, mT2]`. -/
def logsT9 : List LogMsg :=
  [LogMsg.lookingRecent "t1", LogMsg.recentlySkipping,
   LogMsg.lookingRecent "t2", LogMsg.verifyingPredictability "t2"]

/-- Omen market with liquidity 3 and implied probability 0.5, for the
low-liquidity instantiation. -/
def mV10 : AgentMarket :=
  { kind := MarketKind.omen, question := "v10", current_p_yes := 1/2,
    liquidity := 3, minimumBetToWin := fun _ _ => 0, tinyBetAmount := 1/100,
    currency := Currency.xdai }

/-- Concrete answer for the low-liquidity instantiation. -/
def aV10 : Answer := { decision := true, confidence := 1/2 }

/-- On a market of recognized kind, `recently_betted` performs exactly one
fetch for that platform and returns the membership test `questionInHistory`. -/
theorem recently_betted_ok_eq (h : History) (m : AgentMarket)
    (fs : List MarketKind) (b : Bool)
    (he : recently_betted h m = Except.ok (fs, b)) :
    fs = [m.kind] ∧ b = questionInHistory h m := by
  cases hkind : m.kind <;>
    simp [recently_betted, questionInHistory, hkind] at he ⊢ <;> simp_all

/-- Shape invariant of the selection loop: the result extends the
accumulator by an order-preserving subsequence of the remaining input, all of
whose members passed the recency test negatively and the predictability test
positively. -/
theorem pick_go_shape (env : Env) (maxMarkets : Nat) :
    ∀ (ms picked : List AgentMarket) (fs : List MarketKind)
      (logs : List LogMsg) (res : List AgentMarket),
      pick_go env maxMarkets picked ms = Except.ok (fs, logs, res) →
      ∃ extra, res = picked ++ extra ∧ extra.Sublist ms ∧
        ∀ x ∈ extra, questionInHistory env.history x = false ∧
          env.predictable x.question = true := by
  intro ms
  induction ms with
  | nil =>
    intro picked fs logs res h
    simp only [pick_go, Except.ok.injEq, Prod.mk.injEq] at h
    refine ⟨[], ?_, List.nil_sublist _, by simp⟩
    simp [← h.2.2]
  | cons m rest ih =>
    intro picked fs logs res h
    simp only [pick_go] at h
    cases hrb : recently_betted env.history m with
    | error e => rw [hrb] at h; exact absurd h (by simp)
    | ok p =>
      obtain ⟨fs1, b⟩ := p
      rw [hrb] at h
      obtain ⟨hfs1, hb⟩ := recently_betted_ok_eq env.history m fs1 b hrb
      cases b with
      | true =>
        simp only [if_true] at h
        cases hrec : pick_go env maxMarkets picked rest with
        | error e => rw [hrec] at h; exact absurd h (by simp)
        | ok t =>
          obtain ⟨fs2, logs2, res2⟩ := t
          rw [hrec] at h
          simp only [Except.ok.injEq, Prod.mk.injEq] at h
          obtain ⟨extra, hre, hsub, hprop⟩ := ih picked fs2 logs2 res2 hrec
          exact ⟨extra, by rw [← h.2.2, hre], hsub.cons m, hprop⟩
      | false =>
        simp only [Bool.false_eq_true, if_false] at h
        cases hpredv : env.predictable m.question with
        | true =>
          rw [hpredv] at h
          simp only [if_true] at h
          by_cases hbr : maxMarkets ≤ picked.length + 1
          · rw [if_pos hbr] at h
            simp only [Except.ok.injEq, Prod.mk.injEq] at h
            refine ⟨[m], by rw [← h.2.2], ?_, ?_⟩
            · exact (List.nil_sublist rest).cons₂ m
            · intro x hx
              rw [List.mem_singleton] at hx
              subst hx
              exact ⟨hb.symm, hpredv⟩
          · rw [if_neg hbr] at h
            cases hrec : pick_go env maxMarkets (picked ++ [m]) rest with
            | error e => rw [hrec] at h; exact absurd h (by simp)
            | ok t =>
              obtain ⟨fs2, logs2, res2⟩ := t
              rw [hrec] at h
              simp only [Except.ok.injEq, Prod.mk.injEq] at h
              obtain ⟨extra, hre, hsub, hprop⟩ :=
                ih (picked ++ [m]) fs2 logs2 res2 hrec
              refine ⟨m :: extra, ?_, hsub.cons₂ m, ?_⟩
              · rw [← h.2.2, hre, List.append_assoc, List.singleton_append]
              · intro x hx
                rcases List.mem_cons.mp hx with hx | hx
                · subst hx; exact ⟨hb.symm, hpredv⟩
                · exact hprop x hx
        | false =>
          rw [hpredv] at h
          simp only [Bool.false_eq_true, if_false] at h
          by_cases hbr : maxMarkets ≤ picked.length
          · rw [if_pos hbr] at h
            simp only [Except.ok.injEq, Prod.mk.injEq] at h
            exact ⟨[], by rw [← h.2.2]; simp, List.nil_sublist _, by simp⟩
          · rw [if_neg hbr] at h
            cases hrec : pick_go env maxMarkets picked rest with
            | error e => rw [hrec] at h; exact absurd h (by simp)
            | ok t =>
              obtain ⟨fs2, logs2, res2⟩ := t
              rw [hrec] at h
              simp only [Except.ok.injEq, Prod.mk.injEq] at h
              obtain ⟨extra, hre, hsub, hprop⟩ := ih picked fs2 logs2 res2 hrec
              exact ⟨extra, by rw [← h.2.2, hre], hsub.cons m, hprop⟩

/-- Length invariant of the selection loop: starting strictly below the cap,
the result never exceeds `maxMarkets` (the loop breaks as soon as the cap is
reached after an append). -/
theorem pick_go_length (env : Env) (maxMarkets : Nat) :
    ∀ (ms picked : List AgentMarket) (fs : List MarketKind)
      (logs : List LogMsg) (res : List AgentMarket),
      picked.length < maxMarkets →
      pick_go env maxMarkets picked ms = Except.ok (fs, logs, res) →
      res.length ≤ maxMarkets := by
  intro ms
  induction ms with
  | nil =>
    intro picked fs logs res hlt h
    simp only [pick_go, Except.ok.injEq, Prod.mk.injEq] at h
    rw [← h.2.2]
    exact hlt.le
  | cons m rest ih =>
    intro picked fs logs res hlt h
    simp only [pick_go] at h
    cases hrb : recently_betted env.history m with
    | error e => rw [hrb] at h; exact absurd h (by simp)
    | ok p =>
      obtain ⟨fs1, b⟩ := p
      rw [hrb] at h
      cases b with
      | true =>
        simp only [if_true] at h
        cases hrec : pick_go env maxMarkets picked rest with
        | error e => rw [hrec] at h; exact absurd h (by simp)
        | ok t =>
          obtain ⟨fs2, logs2, res2⟩ := t
          rw [hrec] at h
          simp only [Except.ok.injEq, Prod.mk.injEq] at h
          rw [← h.2.2]
          exact ih picked fs2 logs2 res2 hlt hrec
      | false =>
        simp only [Bool.false_eq_true, if_false] at h
        cases hpredv : env.predictable m.question with
        | true =>
          rw [hpredv] at h
          simp only [if_true] at h
          by_cases hbr : maxMarkets ≤ picked.length + 1
          · rw [if_pos hbr] at h
            simp only [Except.ok.injEq, Prod.mk.injEq] at h
            rw [← h.2.2]
            simp only [List.length_append, List.length_singleton]
            omega
          · rw [if_neg hbr] at h
            cases hrec : pick_go env maxMarkets (picked ++ [m]) rest with
            | error e => rw [hrec] at h; exact absurd h (by simp)
            | ok t =>
              obtain ⟨fs2, logs2, res2⟩ := t
              rw [hrec] at h
              simp only [Except.ok.injEq, Prod.mk.injEq] at h
              rw [← h.2.2]
              refine ih (picked ++ [m]) fs2 logs2 res2 ?_ hrec
              simp only [List.length_append, List.length_singleton]
              omega
        | false =>
          rw [hpredv] at h
          simp only [Bool.false_eq_true, if_false] at h
          by_cases hbr : maxMarkets ≤ picked.length
          · exact absurd hbr (by omega)
          · rw [if_neg hbr] at h
            cases hrec : pick_go env maxMarkets picked rest with
            | error e => rw [hrec] at h; exact absurd h (by simp)
            | ok t =>
              obtain ⟨fs2, logs2, res2⟩ := t
              rw [hrec] at h
              simp only [Except.ok.injEq, Prod.mk.injEq] at h
              rw [← h.2.2]
              exact ih picked fs2 logs2 res2 hlt hrec

/-- Accounting of the selection log trace: every evaluated market logs one
`lookingRecent` line followed by either the `recentlySkipping` reason or a
`verifyingPredictability` line; one `isPredictableMsg` line per accepted
market; and the only lines stating a drop are the `recentlySkipping` ones. -/
theorem pick_go_counts (env : Env) (maxMarkets : Nat) :
    ∀ (ms picked : List AgentMarket) (fs : List MarketKind)
      (logs : List LogMsg) (res : List AgentMarket),
      pick_go env maxMarkets picked ms = Except.ok (fs, logs, res) →
      logs.countP isVerifyingMsg + logs.countP isSkippingMsg =
          logs.countP isLookingMsg ∧
        logs.countP isPredictableLog + picked.length = res.length ∧
        logs.countP statesDropReason = logs.countP isSkippingMsg := by
  intro ms
  induction ms with
  | nil =>
    intro picked fs logs res h
    simp only [pick_go, Except.ok.injEq, Prod.mk.injEq] at h
    obtain ⟨-, hlogs, hres⟩ := h
    subst hlogs hres
    simp [List.countP_nil]
  | cons m rest ih =>
    intro picked fs logs res h
    simp only [pick_go] at h
    cases hrb : recently_betted env.history m with
    | error e => rw [hrb] at h; exact absurd h (by simp)
    | ok p =>
      obtain ⟨fs1, b⟩ := p
      rw [hrb] at h
      cases b with
      | true =>
        simp only [if_true] at h
        cases hrec : pick_go env maxMarkets picked rest with
        | error e => rw [hrec] at h; exact absurd h (by simp)
        | ok t =>
          obtain ⟨fs2, logs2, res2⟩ := t
          rw [hrec] at h
          simp only [Except.ok.injEq, Prod.mk.injEq] at h
          obtain ⟨-, hlogs, hres⟩ := h
          subst hlogs hres
          obtain ⟨ih1, ih2, ih3⟩ := ih picked fs2 logs2 res2 hrec
          simp [List.countP_cons, isLookingMsg, isSkippingMsg,
            isVerifyingMsg, isPredictableLog, statesDropReason] at ih1 ih2 ih3 ⊢
          omega
      | false =>
        simp only [Bool.false_eq_true, if_false] at h
        cases hpredv : env.predictable m.question with
        | true =>
          rw [hpredv] at h
          simp only [if_true] at h
          by_cases hbr : maxMarkets ≤ picked.length + 1
          · rw [if_pos hbr] at h
            simp only [Except.ok.injEq, Prod.mk.injEq] at h
            obtain ⟨-, hlogs, hres⟩ := h
            subst hlogs hres
            simp [List.countP_cons, List.countP_nil, List.length_append,
              List.length_singleton, isLookingMsg, isSkippingMsg,
              isVerifyingMsg, isPredictableLog, statesDropReason]
            omega
          · rw [if_neg hbr] at h
            cases hrec : pick_go env maxMarkets (picked ++ [m]) rest with
            | error e => rw [hrec] at h; exact absurd h (by simp)
            | ok t =>
              obtain ⟨fs2, logs2, res2⟩ := t
              rw [hrec] at h
              simp only [Except.ok.injEq, Prod.mk.injEq] at h
              obtain ⟨-, hlogs, hres⟩ := h
              subst hlogs hres
              obtain ⟨ih1, ih2, ih3⟩ := ih (picked ++ [m]) fs2 logs2 res2 hrec
              simp [List.countP_cons, List.length_append,
                List.length_singleton, isLookingMsg, isSkippingMsg,
                isVerifyingMsg, isPredictableLog, statesDropReason] at ih1 ih2 ih3 ⊢
              omega
        | false =>
          rw [hpredv] at h
          simp only [Bool.false_eq_true, if_false] at h
          by_cases hbr : maxMarkets ≤ picked.length
          · rw [if_pos hbr] at h
            simp only [Except.ok.injEq, Prod.mk.injEq] at h
            obtain ⟨-, hlogs, hres⟩ := h
            subst hlogs hres
            simp [List.countP_cons, List.countP_nil, isLookingMsg,
              isSkippingMsg, isVerifyingMsg, isPredictableLog,
              statesDropReason]
          · rw [if_neg hbr] at h
            cases hrec : pick_go env maxMarkets picked rest with
            | error e => rw [hrec] at h; exact absurd h (by simp)
            | ok t =>
              obtain ⟨fs2, logs2, res2⟩ := t
              rw [hrec] at h
              simp only [Except.ok.injEq, Prod.mk.injEq] at h
              obtain ⟨-, hlogs, hres⟩ := h
              subst hlogs hres
              obtain ⟨ih1, ih2, ih3⟩ := ih picked fs2 logs2 res2 hrec
              simp [List.countP_cons, isLookingMsg, isSkippingMsg,
                isVerifyingMsg, isPredictableLog, statesDropReason] at ih1 ih2 ih3 ⊢
              omega

/-- The stretched base stake of the Omen branch lies in `[1/2, 1]` whenever
the implied probability is a genuine probability. -/
theorem omenBaseAmount_bounds (m : AgentMarket)
    (hp0 : 0 ≤ m.current_p_yes) (hp1 : m.current_p_yes ≤ 1) :
    1/2 ≤ omenBaseAmount m ∧ omenBaseAmount m ≤ 1 := by
  have habs : |m.current_p_yes - 1/2| ≤ 1/2 :=
    abs_le.mpr ⟨by linarith, by linarith⟩
  have habs0 : (0 : ℚ) ≤ |m.current_p_yes - 1/2| := abs_nonneg _
  unfold omenBaseAmount stretch_bet_between prob_uncertainty
  constructor <;> nlinarith

/-- The directionally adjusted Omen stake lies in `[3/8, 5/4]` whenever the
implied probability is a genuine probability. -/
theorem omenAdjustedAmount_bounds (a : Answer) (m : AgentMarket)
    (hp0 : 0 ≤ m.current_p_yes) (hp1 : m.current_p_yes ≤ 1) :
    3/8 ≤ omenAdjustedAmount a m ∧ omenAdjustedAmount a m ≤ 5/4 := by
  obtain ⟨hb1, hb2⟩ := omenBaseAmount_bounds m hp0 hp1
  unfold omenAdjustedAmount
  split_ifs <;> constructor <;> nlinarith

/-- C1: for every market of recognized kind and every answer,
`calculate_bet_amount` returns the computed amount unchanged (hence never an
amount above the applicable maximum) when that amount is within the cap, and
otherwise returns exactly the market's tiny bet amount while emitting the
warning-level diagnostic carrying the original computed value, the cap and
the currency. -/
theorem calculate_bet_amount_cap (a : Answer) (m : AgentMarket)
    (hk : m.kind ≠ MarketKind.unknownKind) :
    (computedAmount a m ≤ applicableMax m →
      calculate_bet_amount a m =
        Except.ok ([],
          { amount := computedAmount a m, currency := m.currency })) ∧
    (applicableMax m < computedAmount a m →
      calculate_bet_amount a m =
        Except.ok
          ([LogMsg.exceedingLimit (computedAmount a m) (applicableMax m)
              m.tinyBetAmount m.currency],
           { amount := m.tinyBetAmount, currency := m.currency })) := by
  unfold calculate_bet_amount
  rw [if_neg hk]
  constructor
  · intro hle
    rw [if_neg (not_lt.mpr hle)]
  · intro hlt
    rw [if_pos hlt]

/-- Witness for C1: a Manifold market whose minimum bet to win 1 Mana is 3,
within the 10-unit cap, is returned unchanged. -/
theorem calculate_bet_amount_cap_witness :
    calculate_bet_amount aW1 mW1 =
      Except.ok ([],
        { amount := computedAmount aW1 mW1, currency := mW1.currency }) :=
  (calculate_bet_amount_cap aW1 mW1 (by decide)).1 (by decide)

/-- C2: for every candidate sequence, a successful `pick_markets` run with a
positive configured cap (the per-agent-variant values are 5 and 1) returns at
most `maxMarkets` markets, and the returned sequence is an order-preserving
subsequence of the input. -/
theorem pick_markets_card_subseq (env : Env) (maxMarkets : Nat)
    (markets : List AgentMarket) (fs : List MarketKind) (logs : List LogMsg)
    (res : List AgentMarket) (hmax : 1 ≤ maxMarkets)
    (h : pick_markets env maxMarkets markets = Except.ok (fs, logs, res)) :
    res.length ≤ maxMarkets ∧ res.Sublist markets := by
  unfold pick_markets at h
  constructor
  · exact pick_go_length env maxMarkets markets [] fs logs res
      (by simp only [List.length_nil]; omega) h
  · obtain ⟨extra, hre, hsub, -⟩ :=
      pick_go_shape env maxMarkets markets [] fs logs res h
    rw [hre]
    simpa using hsub

/-- Witness for C2: the default cap 5 on a single fresh candidate. -/
theorem pick_markets_card_subseq_witness :
    [mW2].length ≤ default_max_markets_per_run ∧
      List.Sublist [mW2] [mW2] :=
  pick_markets_card_subseq envW default_max_markets_per_run [mW2]
    [MarketKind.manifold]
    [LogMsg.lookingRecent "w2", LogMsg.verifyingPredictability "w2",
     LogMsg.isPredictableMsg "w2"]
    [mW2] (by decide) (by rfl)

/-- C3: every candidate market whose question text belongs to its platform's
24-hour bet-history set is excluded from the output of a successful
`pick_markets` run, regardless of the predictability oracle. -/
theorem pick_markets_excludes_recent (env : Env) (maxMarkets : Nat)
    (markets : List AgentMarket) (fs : List MarketKind) (logs : List LogMsg)
    (res : List AgentMarket)
    (h : pick_markets env maxMarkets markets = Except.ok (fs, logs, res))
    (m : AgentMarket) (hm : questionInHistory env.history m = true) :
    m ∉ res := by
  unfold pick_markets at h
  obtain ⟨extra, hre, -, hprop⟩ :=
    pick_go_shape env maxMarkets markets [] fs logs res h
  intro hmem
  rw [hre, List.nil_append] at hmem
  have hfalse := (hprop m hmem).1
  rw [hm] at hfalse
  exact Bool.noConfusion hfalse

/-- Witness for C3: with "q1" in the Manifold history and an always-true
predictability oracle, the market on "q1" is excluded from the run's
output. -/
theorem pick_markets_excludes_recent_witness : m1C3 ∉ [m2C3] :=
  pick_markets_excludes_recent envW3 5 [m1C3, m2C3]
    [MarketKind.manifold, MarketKind.manifold]
    [LogMsg.lookingRecent "q1", LogMsg.recentlySkipping,
     LogMsg.lookingRecent "q2", LogMsg.verifyingPredictability "q2",
     LogMsg.isPredictableMsg "q2"]
    [m2C3] (by rfl) m1C3 (by rfl)

/-- Counterexample to C4 as stated: on an Omen market with liquidity 3 and
implied probability 0.5, the agreeing and the disagreeing call both overflow
the 0.1 cap, both are substituted by the tiny bet amount 0.01, and the
returned stakes are equal — not strictly less in ratio 0.75 : 1.25. -/
theorem calc_direction_counterexample :
    calculate_bet_amount aX4agree mX4 =
      Except.ok ([LogMsg.exceedingLimit (3/4) (1/10) (1/100) Currency.xdai],
        { amount := 1/100, currency := Currency.xdai }) ∧
    calculate_bet_amount aX4disagree mX4 =
      Except.ok ([LogMsg.exceedingLimit (5/4) (1/10) (1/100) Currency.xdai],
        { amount := 1/100, currency := Currency.xdai }) ∧
    ¬ ((1 : ℚ)/100 < 1/100) := by
  refine ⟨?_, ?_, by norm_num⟩ <;>
    simp [calculate_bet_amount, computedAmount, applicableMax,
      omenAdjustedAmount, omenBaseAmount, stretch_bet_between,
      prob_uncertainty, omenMaxBetAmount, mX4, aX4agree, aX4disagree] <;>
    norm_num

/-- C4 amended: on an Omen market with liquidity above 5 (cap 2.0, so the
substitution path is never taken) and a genuine implied probability, the
agreeing-decision stake is strictly less than the disagreeing-decision stake,
in the exact ratio 0.75 : 1.25; with liquidity at most 5 both calls return
the tiny bet amount instead (see the counterexample and the low-liquidity
theorem). -/
theorem calc_direction_bias (m : AgentMarket) (a1 a2 : Answer)
    (hk : m.kind = MarketKind.omen)
    (hp0 : 0 ≤ m.current_p_yes) (hp1 : m.current_p_yes ≤ 1)
    (hliq : 5 < m.liquidity)
    (h1 : a1.decision = decide (m.current_p_yes > 1/2))
    (h2 : a2.decision = !a1.decision) :
    calculate_bet_amount a1 m =
      Except.ok ([],
        { amount := omenBaseAmount m * (3/4), currency := m.currency }) ∧
    calculate_bet_amount a2 m =
      Except.ok ([],
        { amount := omenBaseAmount m * (5/4), currency := m.currency }) ∧
    omenBaseAmount m * (3/4) < omenBaseAmount m * (5/4) ∧
    5 * (omenBaseAmount m * (3/4)) = 3 * (omenBaseAmount m * (5/4)) := by
  obtain ⟨hb1, hb2⟩ := omenBaseAmount_bounds m hp0 hp1
  have hknm : m.kind ≠ MarketKind.manifold := by rw [hk]; exact fun hc => by cases hc
  have hknu : m.kind ≠ MarketKind.unknownKind := by rw [hk]; exact fun hc => by cases hc
  have hc1 : computedAmount a1 m = omenBaseAmount m * (3/4) := by
    unfold computedAmount omenAdjustedAmount
    rw [if_neg hknm, if_pos h1]
  have hc2 : computedAmount a2 m = omenBaseAmount m * (5/4) := by
    unfold computedAmount omenAdjustedAmount
    rw [if_neg hknm, if_neg ?_]
    rw [h2, h1]
    exact Bool.not_ne_self _
  have hmax : applicableMax m = 2 := by
    unfold applicableMax omenMaxBetAmount
    rw [if_neg hknm, if_pos hliq]
  refine ⟨?_, ?_, by linarith, by ring⟩
  · unfold calculate_bet_amount
    rw [if_neg hknu, if_neg (not_lt.mpr (by rw [hmax, hc1]; linarith)), hc1]
  · unfold calculate_bet_amount
    rw [if_neg hknu, if_neg (not_lt.mpr (by rw [hmax, hc2]; linarith)), hc2]

/-- Witness for the amended C4: liquidity 10, implied probability 0.5; the
agreeing call returns 0.75 times the base stake uncapped. -/
theorem calc_direction_bias_witness :
    calculate_bet_amount aV4a mV4 =
      Except.ok ([],
        { amount := omenBaseAmount mV4 * (3/4), currency := mV4.currency }) :=
  (calc_direction_bias mV4 aV4a aV4b rfl (by norm_num [mV4])
    (by norm_num [mV4]) (by norm_num [mV4]) (by simp [aV4a, mV4])
    (by simp [aV4a, aV4b])).1

/-- C5: the applicable maximum of the source (`applicableMax`, read off
`calculate_bet_amount`) agrees with the specification's description
(`spec_applicable_max`: 10 for Manifold; 2.0 / 0.1 / 0 by Omen liquidity
tier), the Manifold computed amount is the market's minimum bet to win 1
unit for the chosen decision, and below that cap `calculate_bet_amount`
returns the computed amount itself. -/
theorem applicable_max_tiers (a : Answer) (m : AgentMarket)
    (hk : m.kind ≠ MarketKind.unknownKind) :
    applicableMax m = spec_applicable_max m ∧
    (m.kind = MarketKind.manifold →
      computedAmount a m = m.minimumBetToWin a.decision 1) ∧
    (computedAmount a m ≤ spec_applicable_max m →
      calculate_bet_amount a m =
        Except.ok ([],
          { amount := computedAmount a m, currency := m.currency })) := by
  have hmax : applicableMax m = spec_applicable_max m := by
    unfold applicableMax spec_applicable_max omenMaxBetAmount
    split_ifs <;> first | rfl | (exfalso; simp_all)
  refine ⟨hmax, ?_, ?_⟩
  · intro hkind
    unfold computedAmount
    rw [if_pos hkind]
  · intro hle
    unfold calculate_bet_amount
    rw [if_neg hk, if_neg (not_lt.mpr (by rw [hmax]; exact hle))]

/-- Witness for C5: a Manifold market with minimum bet to win of 3, within
the cap. -/
theorem applicable_max_tiers_witness :
    calculate_bet_amount aW5 mW5 =
      Except.ok ([],
        { amount := computedAmount aW5 mW5, currency := mW5.currency }) :=
  (applicable_max_tiers aW5 mW5 (by decide)).2.2 (by decide)

/-- C6: `answer_binary_market` queries the prediction oracle exactly once
with the market's question, returns `none` exactly when the oracle yields no
outcome prediction — logging the error-level diagnostic in that case — and
otherwise returns the oracle's decision/confidence pair unchanged. -/
theorem answer_binary_market_spec (predict : String → Prediction)
    (m : AgentMarket) :
    (answer_binary_market predict m).1 = [m.question] ∧
    ((answer_binary_market predict m).2.2 = none ↔
      (predict m.question).outcome_prediction = none) ∧
    ((predict m.question).outcome_prediction = none →
      (answer_binary_market predict m).2.1 =
        [LogMsg.predictionFailed m.question]) ∧
    (∀ op, (predict m.question).outcome_prediction = some op →
      (answer_binary_market predict m).2.2 = some op ∧
      (answer_binary_market predict m).2.1 =
        [LogMsg.answering m.question op.decision]) := by
  unfold answer_binary_market
  cases hp : (predict m.question).outcome_prediction with
  | none => simp
  | some op => simp

/-- Witness for C6: an oracle that always yields `aC6` has its answer
returned unchanged. -/
theorem answer_binary_market_spec_witness :
    (answer_binary_market predW mW6).2.2 = some aC6 :=
  ((answer_binary_market_spec predW mW6).2.2.2 aC6 rfl).1

/-- C7: on a market of unrecognized platform kind, the recency test and the
stake sizer both fail fast with the source's `should_not_happen` error,
no `BetAmount` is produced, and `pick_markets` does not catch the error
locally — the whole selection run fails when it evaluates such a market. -/
theorem unknown_kind_fails (h : History) (a : Answer) (m : AgentMarket)
    (env : Env) (maxMarkets : Nat) (rest : List AgentMarket)
    (hk : m.kind = MarketKind.unknownKind) :
    recently_betted h m = Except.error "Uknown market" ∧
    calculate_bet_amount a m = Except.error "Unknown market type" ∧
    pick_markets env maxMarkets (m :: rest) =
      Except.error "Uknown market" := by
  have h1 : recently_betted env.history m = Except.error "Uknown market" := by
    simp [recently_betted, hk]
  refine ⟨by simp [recently_betted, hk], by simp [calculate_bet_amount, hk], ?_⟩
  simp [pick_markets, pick_go, h1]

/-- Witness for C7: a concrete market of unknown kind makes all three
entry points fail with the configuration error. -/
theorem unknown_kind_fails_witness :
    recently_betted envU7.history mU7 = Except.error "Uknown market" ∧
    calculate_bet_amount aU7 mU7 = Except.error "Unknown market type" ∧
    pick_markets envU7 5 [mU7] = Except.error "Uknown market" :=
  unknown_kind_fails envU7.history aU7 mU7 envU7 5 [] (by decide)

/-- C8: evaluation of the code at the failing input.  In a single run over
two Manifold candidates with empty history and an always-true oracle, the
24-hour bet-history fetch executes once per evaluated market — the fetch
trace is `[manifold, manifold]`, two fetches for one platform — instead of
once per platform per run as the claim states. -/
theorem history_fetch_per_market :
    pick_markets envW8 5 [m1W8, m2W8] =
      Except.ok ([MarketKind.manifold, MarketKind.manifold],
        [LogMsg.lookingRecent "r1", LogMsg.verifyingPredictability "r1",
         LogMsg.isPredictableMsg "r1", LogMsg.lookingRecent "r2",
         LogMsg.verifyingPredictability "r2", LogMsg.isPredictableMsg "r2"],
        [m1W8, m2W8]) := by
  rfl

/-- Counterexample to C9 as stated: a market dropped by the predictability
test is removed from the output while the complete log trace of the run
contains no line stating a drop or its reason — only the two informational
pre-check lines emitted before the decision. -/
theorem pick_markets_silent_drop_counterexample :
    pick_markets envW9 5 [mW9] =
      Except.ok ([MarketKind.manifold],
        [LogMsg.lookingRecent "s1", LogMsg.verifyingPredictability "s1"],
        []) ∧
    mW9 ∉ ([] : List AgentMarket) ∧
    List.countP statesDropReason
      [LogMsg.lookingRecent "s1", LogMsg.verifyingPredictability "s1"] = 0 := by
  refine ⟨by rfl, by simp, by decide⟩

/-- C9 amended: markets dropped by the recency test always log their reason
("Recently betted, skipping."), and those are the only drop-stating lines;
markets dropped by the predictability test are dropped silently.  Formally,
in every successful run the drop-stating lines coincide with the recency-skip
lines, every evaluated market logs either a recency-skip line or a
predictability-check line after its looking line, and accepted markets (and
only they) add an is-predictable line — so the
`countP isVerifyingMsg logs − res.length` markets dropped by the
predictability test contribute no drop-stating line. -/
theorem pick_markets_drop_logging (env : Env) (maxMarkets : Nat)
    (markets : List AgentMarket) (fs : List MarketKind) (logs : List LogMsg)
    (res : List AgentMarket)
    (h : pick_markets env maxMarkets markets = Except.ok (fs, logs, res)) :
    logs.countP statesDropReason = logs.countP isSkippingMsg ∧
    logs.countP isVerifyingMsg + logs.countP isSkippingMsg =
      logs.countP isLookingMsg ∧
    logs.countP isPredictableLog = res.length := by
  unfold pick_markets at h
  obtain ⟨h1, h2, h3⟩ := pick_go_counts env maxMarkets markets [] fs logs res h
  refine ⟨h3, h1, ?_⟩
  simpa using h2

/-- Witness for the amended C9: a run with one recency drop (reason logged)
and one silent predictability drop. -/
theorem pick_markets_drop_logging_witness :
    logsT9.countP statesDropReason = logsT9.countP isSkippingMsg ∧
    logsT9.countP isVerifyingMsg + logsT9.countP isSkippingMsg =
      logsT9.countP isLookingMsg ∧
    logsT9.countP isPredictableLog = ([] : List AgentMarket).length :=
  pick_markets_drop_logging envT9 5 [mT1, mT2]
    [MarketKind.manifold, MarketKind.manifold] logsT9 [] (by rfl)

/-- C10: on every Omen market with liquidity at most 5 and a genuine implied
probability, the adjusted stake is at least 3/8 = 0.375 while the applicable
cap is at most 0.1, so `calculate_bet_amount` always takes the substitution
path and returns exactly the market's tiny bet amount, with the warning. -/
theorem calc_low_liquidity_tiny (a : Answer) (m : AgentMarket)
    (hk : m.kind = MarketKind.omen)
    (hp0 : 0 ≤ m.current_p_yes) (hp1 : m.current_p_yes ≤ 1)
    (hliq : m.liquidity ≤ 5) :
    3/8 ≤ computedAmount a m ∧ applicableMax m ≤ 1/10 ∧
    calculate_bet_amount a m =
      Except.ok
        ([LogMsg.exceedingLimit (computedAmount a m) (applicableMax m)
            m.tinyBetAmount m.currency],
         { amount := m.tinyBetAmount, currency := m.currency }) := by
  have hknm : m.kind ≠ MarketKind.manifold := by
    rw [hk]; exact fun hc => by cases hc
  have hknu : m.kind ≠ MarketKind.unknownKind := by
    rw [hk]; exact fun hc => by cases hc
  obtain ⟨ha1, ha2⟩ := omenAdjustedAmount_bounds a m hp0 hp1
  have hc : computedAmount a m = omenAdjustedAmount a m := by
    unfold computedAmount
    rw [if_neg hknm]
  have hmaxle : applicableMax m ≤ 1/10 := by
    unfold applicableMax omenMaxBetAmount
    rw [if_neg hknm]
    split_ifs with h5 h1 <;> linarith
  refine ⟨by rw [hc]; exact ha1, hmaxle, ?_⟩
  unfold calculate_bet_amount
  rw [if_neg hknu, if_pos (by rw [hc]; linarith)]

/-- Witness for C10: liquidity 3, implied probability 0.5 — the tiny bet
amount 0.01 is returned with the warning. -/
theorem calc_low_liquidity_tiny_witness :
    calculate_bet_amount aV10 mV10 =
      Except.ok
        ([LogMsg.exceedingLimit (computedAmount aV10 mV10)
            (applicableMax mV10) mV10.tinyBetAmount mV10.currency],
         { amount := mV10.tinyBetAmount, currency := mV10.currency }) :=
  (calc_low_liquidity_tiny aV10 mV10 rfl (by norm_num [mV10])
    (by norm_num [mV10]) (by norm_num [mV10])).2.2

end ProphetAgent
